import Mathlib

/-!
# Verification of the dungeon-tilesets layout generator

A shallow embedding of the core of the `dungeon-tilesets` module:
the `Room` tile-transform code and the frontier-driven `Generator`
(`src/scripts/room.mjs`), together with the catalog query
(`src/scripts/tileset.mjs`).  JavaScript values are modelled with plain
Lean data:

* an edge location (`EdgeData` in the source JSDoc) is an object
  (a known open edge, carrying a `type` string), the boolean `false`
  (a known closed edge), or `null` (unknown) — modelled by the inductive
  `EdgeData` below, where `Open kind` stands for an object whose `type`
  field holds `kind` (the empty string models a missing or empty `type`);
* JavaScript `undefined`/`null` of optional record fields is `Option`;
* exceptions are `Option`/`Except` results;
* `Math.random()` draws are modelled by an arbitrary stream
  `σ : Nat → Nat`, an index into a list `l` being `σ i % l.length`
  (every concrete run of the source corresponds to some `σ`, and
  conversely);
* the in-place mutation performed by `_export` on the stored wall data is
  modelled by explicit state passing (`_export` returns the *updated*
  layout beside the produced configuration).
-/

namespace DTile

/-- One edge location of a room boundary (`EdgeData` in the source JSDoc
of `src/scripts/room.mjs`): an object means a known open edge
(`Open kind` models `\x7btype: kind\x7d`; `kind = ""` models a missing or
empty `type`), `false` means closed (`Closed`), `null` means unknown
(`Unknown`). -/
inductive EdgeData where
  | Open (kind : String)
  | Closed
  | Unknown
deriving DecidableEq, Repr

/-- The four cardinal directions, in the order of
`Room.DIRECTIONS = ["n", "e", "s", "w"]`. -/
inductive Dir where
  | n
  | e
  | s
  | w
deriving DecidableEq, Repr

/-- `Room.DIRECTIONS` (src/scripts/room.mjs line 90). -/
def DIRECTIONS : List Dir := [Dir.n, Dir.e, Dir.s, Dir.w]

/-- `DIRECTIONS.indexOf(direction)`. -/
def dirIndex : Dir → Nat
  | Dir.n => 0
  | Dir.e => 1
  | Dir.s => 2
  | Dir.w => 3

/-- `DIRECTIONS[i % 4]`. -/
def dirAt (i : Nat) : Dir :=
  match i % 4 with
  | 0 => Dir.n
  | 1 => Dir.e
  | 2 => Dir.s
  | _ => Dir.w

/-- The direction reversal table `\x7b n: "s", e: "w", s: "n", w: "e" \x7d`
used by `_getAdjacentEdges`. -/
def oppositeDir : Dir → Dir
  | Dir.n => Dir.s
  | Dir.e => Dir.w
  | Dir.s => Dir.n
  | Dir.w => Dir.e

/-- `EdgeConstraints` (source JSDoc): one list of edge data per cardinal
direction; each list has one entry per unit of the room's side length. -/
structure EdgeConstraints where
  n : List EdgeData
  e : List EdgeData
  s : List EdgeData
  w : List EdgeData
deriving DecidableEq, Repr

/-- Field access `edges[d]` for a direction key `d`. -/
def edgesAt (E : EdgeConstraints) : Dir → List EdgeData
  | Dir.n => E.n
  | Dir.e => E.e
  | Dir.s => E.s
  | Dir.w => E.w

/-- One position of `_testEdge`'s callback
(src/scripts/room.mjs lines 802-807): `v` is the constraint element,
`e = edge[i]` the candidate element (`none` models `undefined`, the
out-of-range access).  `null` matches anything; `false` requires
`e === false`; an object (open) requires `!!e === !!v`, i.e. a truthy —
open — candidate, whatever its `type`. -/
def edgeCheck (e : Option EdgeData) : EdgeData → Bool
  | EdgeData.Unknown => true
  | EdgeData.Closed => e == some EdgeData.Closed
  | EdgeData.Open _ =>
    match e with
    | some (EdgeData.Open _) => true
    | _ => false

/-- `Generator#_testEdge` (src/scripts/room.mjs lines 801-808):
`constraint.every((v, i) => ...)` over the candidate `edge`. -/
def _testEdge (edge constraint : List EdgeData) : Bool :=
  constraint.enum.all fun iv => edgeCheck (edge.get? iv.1) iv.2

/-- A wall segment (`WallData`): its `c` array `[x1, y1, x2, y2]`.
Coordinates are integers (the transforms compute `1800 - y`, which the
source never lets go negative for in-range data, but `Int` keeps the
model total). Other `WallData` fields are never read or written by the
core, so they are omitted. -/
structure Wall where
  c0 : Int
  c1 : Int
  c2 : Int
  c3 : Int
deriving DecidableEq, Repr

/-- `Room#_rotatePointClockwise` (src/scripts/room.mjs lines 204-207):
`(x, y) -> (1800 - y, x)` with the hard-coded extent 1800. -/
def _rotatePointClockwise (x y : Int) : Int × Int := (1800 - y, x)

/-- `Room#_flipPointHorizontally` (lines 267-270): `(x, y) -> (1800 - x, y)`. -/
def _flipPointHorizontally (x y : Int) : Int × Int := (1800 - x, y)

/-- `Room#_flipPointVertically` (lines 273-276): `(x, y) -> (x, 1800 - y)`. -/
def _flipPointVertically (x y : Int) : Int × Int := (x, 1800 - y)

/-- Apply `_rotatePointClockwise` to both endpoints of a wall, as one pass
of the inner loop of `_rotateWalls` (lines 183-190). -/
def rotateWallOnce (w : Wall) : Wall :=
  let p1 := _rotatePointClockwise w.c0 w.c1
  let p2 := _rotatePointClockwise w.c2 w.c3
  { c0 := p1.1, c1 := p1.2, c2 := p2.1, c3 := p2.2 }

/-- `numOfRotations` applications of the clockwise point rotation. -/
def rotateWallBy : Nat → Wall → Wall
  | 0, w => w
  | k + 1, w => rotateWallBy k (rotateWallOnce w)

/-- One wall flipped horizontally (`_flipWallsHorizontally` body,
lines 233-238). -/
def flipWallH (w : Wall) : Wall :=
  let p1 := _flipPointHorizontally w.c0 w.c1
  let p2 := _flipPointHorizontally w.c2 w.c3
  { c0 := p1.1, c1 := p1.2, c2 := p2.1, c3 := p2.2 }

/-- The `walls` property of a room-data record.  The base catalog data
(and `getBlankPermutation`, and the result of `_flipWallsHorizontally`)
hold a flat array of wall segments; `_rotateWalls` replaces it with an
object keyed by cardinal direction. -/
inductive WallsData where
  | flat (ws : List Wall)
  | byDir (n e s w : List Wall)
deriving DecidableEq, Repr

/-- A `RoomData` record as it flows through the generator: the JSON
fields (`name`, `size`, `edges`, `walls`) plus the fields the transform
engine adds (`rotation`, `img`, `mirrorX`, `mirrorY`).  On base catalog
data `rotation`/`mirrorX`/`mirrorY` are `undefined`; they are only ever
read on permutations and on `getBlankPermutation()`, where they are
always set, so the model carries them as total fields (with `img` as
`Option`, since the blank permutation stores `null` there). -/
structure RoomData where
  name : String
  size : Nat
  edges : EdgeConstraints
  walls : WallsData
  rotation : Nat
  img : Option String
  mirrorX : Bool
  mirrorY : Bool
deriving DecidableEq, Repr

/-- The base data of a catalog `Room` as loaded from JSON: `name`,
`size`, flat `walls`, `edges` (src/scripts/room.mjs JSDoc lines 357-364). -/
structure RoomBase where
  name : String
  size : Nat
  edges : EdgeConstraints
  walls : List Wall
deriving DecidableEq, Repr

/-- A catalog `Room` instance: its data plus the derived image path
(`Room#img`, a string computed from the owning tileset's path). -/
structure Room where
  data : RoomBase
  img : String
deriving DecidableEq, Repr

/-- `Generator#_testPermutation` (src/scripts/room.mjs lines 785-791):
test `permutation.edges[k]` against every constraint direction `k`
(`Object.entries` of a constraints object yields `n`, `e`, `s`, `w` in
insertion order), failing as soon as one edge fails. -/
def _testPermutation (permutation : RoomData) (constraints : EdgeConstraints) : Bool :=
  _testEdge permutation.edges.n constraints.n &&
  _testEdge permutation.edges.e constraints.e &&
  _testEdge permutation.edges.s constraints.s &&
  _testEdge permutation.edges.w constraints.w

/-- `Room#_rotateEdges` (src/scripts/room.mjs lines 152-161): with
`k = DIRECTIONS.indexOf(direction)`, the rotated constraints assign
`rotated[DIRECTIONS[i]] = edges[DIRECTIONS[(i + k) % 4]]`, each list
taken verbatim. -/
def _rotateEdges (direction : Dir) (edges : EdgeConstraints) : EdgeConstraints :=
  let k := dirIndex direction
  { n := edgesAt edges (dirAt (0 + k))
    e := edgesAt edges (dirAt (1 + k))
    s := edgesAt edges (dirAt (2 + k))
    w := edgesAt edges (dirAt (3 + k)) }

/-- The rotation mapping exactly as the specification sentence states it:
`new[direction] = old[direction rotated by -k]` (stepping `k` places
backwards in the `n, e, s, w` cycle), with the north and south sequences
reversed for the quarter turns (`k = 1, 3`) and all four sequences
reversed for the half turn (`k = 2`). -/
def specRotateEdges (k : Nat) (edges : EdgeConstraints) : EdgeConstraints :=
  let old : Dir → List EdgeData := fun d => edgesAt edges (dirAt (dirIndex d + (4 - k % 4)))
  match k % 4 with
  | 1 => { n := (old Dir.n).reverse, e := old Dir.e, s := (old Dir.s).reverse, w := old Dir.w }
  | 2 => { n := (old Dir.n).reverse, e := (old Dir.e).reverse
           s := (old Dir.s).reverse, w := (old Dir.w).reverse }
  | 3 => { n := (old Dir.n).reverse, e := old Dir.e, s := (old Dir.s).reverse, w := old Dir.w }
  | _ => { n := old Dir.n, e := old Dir.e, s := old Dir.s, w := old Dir.w }

/-- `Room#_rotateWalls` (src/scripts/room.mjs lines 163-199).  For each
direction `d` at index `i`, the walls are the base flat list with each
segment rotated clockwise `i` times (the loop uses
`rotationIndex = DIRECTIONS.indexOf(d) = i`, and its `x` variable is
never used, so the `direction` argument does not influence the result).
At index 0 the original array is used as-is.  The source is only ever
applied to base data, whose `walls` is a flat array; on an already
rotated per-direction object the JS loop would read an undefined
`length` and produce empty lists, which the `byDir` branch mirrors. -/
def _rotateWalls (_direction : Dir) (walls : WallsData) : WallsData :=
  match walls with
  | WallsData.flat ws =>
    WallsData.byDir ws (ws.map (rotateWallBy 1)) (ws.map (rotateWallBy 2)) (ws.map (rotateWallBy 3))
  | WallsData.byDir n _ _ _ => WallsData.byDir n [] [] []

/-- The `rotation` degree table of `Room#rotate` (lines 134-139). -/
def rotationDegrees : Dir → Nat
  | Dir.n => 0
  | Dir.e => 90
  | Dir.s => 180
  | Dir.w => 270

/-- `Room#rotate` (src/scripts/room.mjs lines 130-141): duplicate the
base data, rotate edges and walls, record the rotation degree.  The
`img`/`mirrorX`/`mirrorY` fields are undefined at this point; the only
caller, `getPermutations`, immediately assigns all three, so the model
initialises them to the values that caller writes. -/
def rotate (r : Room) (direction : Dir) : RoomData :=
  { name := r.data.name
    size := r.data.size
    edges := _rotateEdges direction r.data.edges
    walls := _rotateWalls direction (WallsData.flat r.data.walls)
    rotation := rotationDegrees direction
    img := none
    mirrorX := false
    mirrorY := false }

/-- `Room#_flipWallsHorizontally` (lines 226-244): flip each wall of a
flat array.  `getPermutations` feeds it the *per-direction object*
produced by `_rotateWalls`, whose `length` is undefined, so the loop
body never runs and the function returns the empty flat array. -/
def _flipWallsHorizontally (walls : WallsData) : WallsData :=
  match walls with
  | WallsData.flat ws => WallsData.flat (ws.map flipWallH)
  | WallsData.byDir _ _ _ _ => WallsData.flat []

/-- `Room#flipHorizontal` (src/scripts/room.mjs lines 216-224): swap the
east and west edge lists, set `mirrorX`, flip the walls. -/
def flipHorizontal (data : RoomData) : RoomData :=
  { data with
    edges := { data.edges with e := data.edges.w, w := data.edges.e }
    mirrorX := true
    walls := _flipWallsHorizontally data.walls }

/-- `Room#flipVertical` (src/scripts/room.mjs lines 285-292): swap the
north and south edge lists and set `mirrorY` (walls are not touched). -/
def flipVertical (data : RoomData) : RoomData :=
  { data with
    edges := { data.edges with n := data.edges.s, s := data.edges.n }
    mirrorY := true }

/-- `Room#getPermutations` (src/scripts/room.mjs lines 300-317): the four
rotations (with `img` set and both mirror flags cleared), then their
horizontal flips, then their vertical flips. -/
def getPermutations (r : Room) : List RoomData :=
  let rotations := DIRECTIONS.map fun d =>
    { rotate r d with img := some r.img, mirrorX := false, mirrorY := false }
  rotations ++ rotations.map flipHorizontal ++ rotations.map flipVertical

/-- `Room.getBlankPermutation` (src/scripts/room.mjs lines 321-338):
the synthetic all-closed 9×9 tile with no walls and no image. -/
def getBlankPermutation : RoomData :=
  let edges := List.replicate 9 EdgeData.Closed
  { name := "Blank"
    size := 9
    walls := WallsData.flat []
    edges := { n := edges, e := edges, s := edges, w := edges }
    rotation := 0
    img := none
    mirrorX := false
    mirrorY := false }

/-- One step of the reducer in `Room#nOpen`
(src/scripts/room.mjs lines 116-122): the edge counts when
`(e !== false) && !!e.type`.  A `false` (closed) edge fails the first
conjunct; an object counts exactly when its `type` is truthy (non-empty);
a `null` (unknown) edge passes `e !== false` and then `null.type` throws
a `TypeError`, modelled by `none`. -/
def nOpenEdge : EdgeData → Option Bool
  | EdgeData.Closed => some false
  | EdgeData.Open kind => some (kind ≠ "")
  | EdgeData.Unknown => none

/-- `Room#nOpen` (src/scripts/room.mjs lines 116-122): count over
`Object.values(this.data.edges).flat()`, i.e. the concatenation
`n ++ e ++ s ++ w`; `none` models the `TypeError` thrown on an unknown
(`null`) edge. -/
def nOpen (data : RoomBase) : Option Nat :=
  let edges := data.edges.n ++ data.edges.e ++ data.edges.s ++ data.edges.w
  edges.foldl
    (fun acc e => do
      let n ← acc
      let b ← nOpenEdge e
      pure (if b then n + 1 else n))
    (some 0)

/-- `Tileset#findRooms` (src/scripts/tileset.mjs lines 53-62): keep, in
insertion order, the rooms whose `nOpen` lies within the given bounds;
an absent (`undefined`, non-numeric) bound imposes no constraint.
`nOpen` is evaluated for every visited room before the bound checks, so
a `TypeError` from `nOpen` (`none`) aborts the whole query.  The
`centerOpen`/`cornerOpen` options are accepted but never read by the
source, so they are omitted. -/
def findRooms (rooms : List Room) (minOpen maxOpen : Option Nat) : Option (List Room) :=
  match rooms with
  | [] => some []
  | r :: rest => do
    let n ← nOpen r.data
    let keep :=
      (match minOpen with
       | some m => decide (m ≤ n)
       | none => true) &&
      (match maxOpen with
       | some m => decide (n ≤ m)
       | none => true)
    let tail ← findRooms rest minOpen maxOpen
    pure (if keep then r :: tail else tail)

/-- The number of `Open` boundary units of a tile as the claim counts
them: every unit across all four sides whose value is `Open`, regardless
of its opening kind. -/
def specOpenCount (data : RoomBase) : Nat :=
  (data.edges.n ++ data.edges.e ++ data.edges.s ++ data.edges.w).countP
    fun e => match e with
      | EdgeData.Open _ => true
      | _ => false

/-- Bound check of a count against optional minimum/maximum bounds
(absent bound unconstrained). -/
def boundsOK (n : Nat) (minOpen maxOpen : Option Nat) : Bool :=
  (match minOpen with
   | some m => decide (m ≤ n)
   | none => true) &&
  (match maxOpen with
   | some m => decide (n ≤ m)
   | none => true)

/-- The catalog query exactly as the claim describes it: the tiles, in
insertion order, whose `Open`-unit count (any kind) satisfies the
bounds. -/
def specFindRooms (rooms : List Room) (minOpen maxOpen : Option Nat) : List Room :=
  rooms.filter fun r => boundsOK (specOpenCount r.data) minOpen maxOpen

/-- A room base has no `Unknown` boundary unit (so `nOpen` cannot throw). -/
def noUnknownEdges (data : RoomBase) : Prop :=
  ∀ x ∈ data.edges.n ++ data.edges.e ++ data.edges.s ++ data.edges.w,
    x ≠ EdgeData.Unknown

/-- The `Open`-with-truthy-kind count that `nOpen` actually computes on
unknown-free data. -/
def truthyOpenCount (data : RoomBase) : Nat :=
  (data.edges.n ++ data.edges.e ++ data.edges.s ++ data.edges.w).countP
    fun e => match e with
      | EdgeData.Open kind => kind ≠ ""
      | _ => false

/-- Grid coordinates are `(x, y)` column/row pairs. -/
abbrev Coord := Nat × Nat

/-- The mutable state of a `Generator`
(src/scripts/room.mjs lines 455-536): the grid dimensions fixed by
`_configure`, the layout matrix (modelled as a total map from
coordinates to an optional room-data record, `none` being the `null` of
an empty cell), the placement history, the global attempt counter, and
the position in the random stream.  The write-only `attemptsCurrent`
counter (incremented in `_generate`, reset in `_backtrack`, never read)
is not modelled. -/
structure GenState where
  nRooms : Nat
  roomSize : Nat
  gridSize : Nat
  layout : Coord → Option RoomData
  placements : List Coord
  attempts : Nat
  rix : Nat

/-- `Generator.MAX_ALLOWED_ATTEMPTS` (src/scripts/room.mjs line 467). -/
def maxAttempts : Nat := 500

/-- The grid-size presets of `Generator#_configure`
(src/scripts/room.mjs lines 523-527). -/
inductive SizeOpt where
  | small
  | medium
  | large
deriving DecidableEq, Repr

/-- `\x7b small: 3, medium: 5, large: 7 \x7d[size]`. -/
def nRoomsOf : SizeOpt → Nat
  | SizeOpt.small => 3
  | SizeOpt.medium => 5
  | SizeOpt.large => 7

/-- `Generator#_configure` (src/scripts/room.mjs lines 519-536) combined
with the constructor defaults (`gridSize = 200`, `roomSize = 9`): an
all-`null` layout, no placements, zero attempts. -/
def configureG (size : SizeOpt) (roomSize gridSize : Nat) : GenState :=
  { nRooms := nRoomsOf size
    roomSize := roomSize
    gridSize := gridSize
    layout := fun _ => none
    placements := []
    attempts := 0
    rix := 0 }

/-- `Generator#_getCanvasSize` (src/scripts/room.mjs lines 546-548). -/
def _getCanvasSize (g : GenState) : Nat :=
  g.nRooms * g.roomSize * g.gridSize

/-- Point update of a layout map. -/
def setCell (L : Coord → Option RoomData) (c : Coord) (v : Option RoomData) :
    Coord → Option RoomData :=
  fun c' => if c' = c then v else L c'

/-- The x-major enumeration of all grid cells, as both `_getProgress`
(lines 664-670) and `_export` (lines 866-867) traverse them. -/
def gridCoords (nRooms : Nat) : List Coord :=
  (List.range nRooms).flatMap fun x => (List.range nRooms).map fun y => (x, y)

/-- The contents of a neighbouring cell as `Generator#getAdjacent`
classifies them: `false` for the outer edge, `null` for an interior
blank, or the adjacent room data. -/
inductive AdjCell where
  | outer
  | empty
  | room (d : RoomData)

/-- `Generator#getAdjacent` (src/scripts/room.mjs lines 694-701). -/
def getAdjacent (g : GenState) (x y : Nat) : Dir → AdjCell
  | Dir.n => if y = 0 then AdjCell.outer else
      match g.layout (x, y - 1) with
      | some d => AdjCell.room d
      | none => AdjCell.empty
  | Dir.e => if x = g.nRooms - 1 then AdjCell.outer else
      match g.layout (x + 1, y) with
      | some d => AdjCell.room d
      | none => AdjCell.empty
  | Dir.s => if y = g.nRooms - 1 then AdjCell.outer else
      match g.layout (x, y + 1) with
      | some d => AdjCell.room d
      | none => AdjCell.empty
  | Dir.w => if x = 0 then AdjCell.outer else
      match g.layout (x - 1, y) with
      | some d => AdjCell.room d
      | none => AdjCell.empty

/-- `Generator#_getAdjacentEdges` (src/scripts/room.mjs lines 733-745):
an outer edge contributes an all-closed constraint, an empty neighbour
an all-unknown one, a placed neighbour its own edge list on the side
facing back (the reversed direction), copied verbatim (`duplicate`; the
`?? ...` all-unknown fallback for a missing edge key cannot trigger in
the model, where every direction key is present). -/
def _getAdjacentEdges (g : GenState) (direction : Dir) : AdjCell → List EdgeData
  | AdjCell.outer => List.replicate g.roomSize EdgeData.Closed
  | AdjCell.empty => List.replicate g.roomSize EdgeData.Unknown
  | AdjCell.room d => edgesAt d.edges (oppositeDir direction)

/-- `Generator#_getAdjacentConstraints` (src/scripts/room.mjs
lines 715-722). -/
def _getAdjacentConstraints (g : GenState) (x y : Nat) : EdgeConstraints :=
  { n := _getAdjacentEdges g Dir.n (getAdjacent g x y Dir.n)
    e := _getAdjacentEdges g Dir.e (getAdjacent g x y Dir.e)
    s := _getAdjacentEdges g Dir.s (getAdjacent g x y Dir.s)
    w := _getAdjacentEdges g Dir.w (getAdjacent g x y Dir.w) }

/-- The `minOpen` reducer of `Generator#_try` (line 590):
`Object.values(constraints).flat().reduce((n, e) => (!!e ? n+1 : n), 0)`
counts the truthy — open, of any kind — constraint elements. -/
def countOpenConstraints (constraints : EdgeConstraints) : Nat :=
  (constraints.n ++ constraints.e ++ constraints.s ++ constraints.w).countP
    fun e => match e with
      | EdgeData.Open _ => true
      | _ => false

/-- `Generator#_getMatchingPermutations` (src/scripts/room.mjs
lines 756-775): every permutation of every candidate room that passes
`_testPermutation`, in catalog order; if none passes, the blank
permutation is offered as a fallback (kept only if it passes itself). -/
def _getMatchingPermutations (rooms : List Room) (constraints : EdgeConstraints) :
    List RoomData :=
  let matched := rooms.flatMap fun r =>
    (getPermutations r).filter fun p => _testPermutation p constraints
  if matched.isEmpty then
    if _testPermutation getBlankPermutation constraints then [getBlankPermutation] else []
  else matched

/-- Modelled from the spec: `Room.getOpenDirections` is called by
`Generator#_getProgress` (src/scripts/room.mjs line 651) but is not
defined anywhere under `src/`.  Per the spec's frontier definition
(§4.4, glossary), a frontier/required cell is one adjacent to a placed
cell with an `Open` boundary segment facing it, so the open directions
of a room are the cardinal directions whose boundary sequence contains
an `Open` segment. -/
def getOpenDirections (d : RoomData) : List Dir :=
  DIRECTIONS.filter fun dir =>
    (edgesAt d.edges dir).any fun e =>
      match e with
      | EdgeData.Open _ => true
      | _ => false

/-- The type of the stand-in for `Room.getOpenDirections`: the generator
definitions are parametrised over it so that properties that do not
depend on the missing function can be proved for every candidate. -/
abbrev OpenDirs := RoomData → List Dir

/-- Insertion-ordered `Set.add`. -/
def addUnique (l : List Coord) (c : Coord) : List Coord :=
  if c ∈ l then l else l ++ [c]

/-- `Set.delete`. -/
def removeAll (l : List Coord) (c : Coord) : List Coord :=
  l.filter fun x => x ≠ c

/-- The offset table `adjacent` of `_getProgress`
(src/scripts/room.mjs lines 638-643). -/
def adjacentOffset : Dir → Int × Int
  | Dir.n => (0, -1)
  | Dir.e => (1, 0)
  | Dir.s => (0, 1)
  | Dir.w => (-1, 0)

/-- The three position sets returned by `Generator#_getProgress`. -/
structure Progress where
  completed : List Coord
  required : List Coord
  incomplete : List Coord

/-- The body of the open-direction loop of `_getProgress`
(src/scripts/room.mjs lines 652-660): require the neighbour the
direction points at when it is inside the grid (`Number#between` is
inclusive on `[0, nRooms-1]`) and not yet completed. -/
def requireStep (g : GenState) (completed : List Coord) (c : Coord)
    (req : List Coord) (d : Dir) : List Coord :=
  let o := adjacentOffset d
  let x1 : Int := (c.1 : Int) + o.1
  let y1 : Int := (c.2 : Int) + o.2
  if 0 ≤ x1 ∧ x1 ≤ (g.nRooms : Int) - 1 ∧ 0 ≤ y1 ∧ y1 ≤ (g.nRooms : Int) - 1 ∧
      (x1.toNat, y1.toNat) ∉ completed then
    addUnique req (x1.toNat, y1.toNat)
  else req

/-- The body of `_getProgress`'s placement loop
(src/scripts/room.mjs lines 646-661) for one placement: mark it
completed, un-require it, then require every in-bounds, not-yet-completed
neighbour that one of the room's open directions points at.  If the
layout holds no room at the placement (impossible for states the
generator reaches), no directions are open. -/
def progressStep (od : OpenDirs) (g : GenState) (cr : List Coord × List Coord)
    (c : Coord) : List Coord × List Coord :=
  let completed := addUnique cr.1 c
  let required := removeAll cr.2 c
  let dirs := match g.layout c with
    | some room => od room
    | none => []
  (completed, dirs.foldl (requireStep g completed c) required)

/-- `Generator#_getProgress` (src/scripts/room.mjs lines 630-674),
parametrised over the missing `Room.getOpenDirections`: fold the
placement loop over the history in order, then record as incomplete
every grid cell not completed. -/
def _getProgress (od : OpenDirs) (g : GenState) : Progress :=
  let cr := g.placements.foldl (progressStep od g) ([], [])
  { completed := cr.1
    required := cr.2
    incomplete := (gridCoords g.nRooms).filter fun c => c ∉ cr.1 }

/-- The location kind that `_getNextLocation` appends to its result. -/
inductive LocType where
  | initial
  | adjacent
  | blank
deriving DecidableEq, Repr

/-- One `Math.random()` draw: read the stream at the current index and
advance. -/
def draw (σ : Nat → Nat) (g : GenState) : Nat × GenState :=
  (σ g.rix, { g with rix := g.rix + 1 })

/-- `remaining[Math.floor(Math.random() * remaining.length)]` for a
non-empty list. -/
def pickAt (v : Nat) (l : List Coord) (h : l ≠ []) : Coord :=
  l.get ⟨v % l.length, Nat.mod_lt _ (List.length_pos.mpr h)⟩

/-- `Generator#_getNextLocation` (src/scripts/room.mjs lines 817-842):
the centre cell for a brand-new layout; otherwise a uniformly random
required (frontier) cell; otherwise a uniformly random incomplete cell
to fill with a blank; if none remain, throw (`none`). -/
def _getNextLocation (od : OpenDirs) (σ : Nat → Nat) (g : GenState) :
    Option (Coord × LocType × GenState) :=
  if g.placements.isEmpty then
    let i1 := g.nRooms / 2
    some ((i1, i1), LocType.initial, g)
  else
    let progress := _getProgress od g
    if h : progress.required ≠ [] then
      let (v, g1) := draw σ g
      some (pickAt v progress.required h, LocType.adjacent, g1)
    else if h2 : progress.incomplete ≠ [] then
      let (v, g1) := draw σ g
      some (pickAt v progress.incomplete h2, LocType.blank, g1)
    else none

/-- `this.attemptsCurrent++; this._attempts++` at the top of the
`_generate` loop body (src/scripts/room.mjs lines 561-562);
`attemptsCurrent` is never read, so only `_attempts` is modelled. -/
def incAttempts (g : GenState) : GenState :=
  { g with attempts := g.attempts + 1 }

/-- `Generator#_try` (src/scripts/room.mjs lines 581-606): pick the next
location, build its adjacency constraints, query the catalog (skipped
for a blank-fill location; `minOpen` is 9 for the very first placement
and otherwise the number of open constraint elements), collect the
matching permutations, and commit a uniformly random one.  `none` models
any exception: the explicit `throw` when no permutation matches, the
throw inside `_getNextLocation`, or a `TypeError` escaping
`findRooms`. -/
def _try (ts : List Room) (od : OpenDirs) (σ : Nat → Nat) (g : GenState) :
    Option GenState :=
  match _getNextLocation od σ g with
  | none => none
  | some (c, ty, g1) =>
    let constraints := _getAdjacentConstraints g1 c.1 c.2
    let minOpen := if g1.placements.isEmpty then 9 else countOpenConstraints constraints
    let roomsQ := if ty = LocType.blank then some [] else findRooms ts (some minOpen) none
    match roomsQ with
    | none => none
    | some rooms =>
      let permutations := _getMatchingPermutations rooms constraints
      if h : permutations = [] then none
      else
        let (v, g2) := draw σ g1
        let chosen := permutations.get
          ⟨v % permutations.length, Nat.mod_lt _ (List.length_pos.mpr h)⟩
        some { g2 with
          placements := g2.placements ++ [c]
          layout := setCell g2.layout c (some chosen) }

/-- `Generator#_backtrack` (src/scripts/room.mjs lines 614-621): throw
(`none`) when the history is empty, else pop the most recent placement
and reset its cell to `null`. -/
def _backtrack (g : GenState) : Option GenState :=
  match g.placements.getLast? with
  | none => none
  | some c => some
    { g with
      placements := g.placements.dropLast
      layout := setCell g.layout c none }

/-- The `while` loop of `Generator#_generate`
(src/scripts/room.mjs lines 556-573), with fuel bounding the recursion
(each iteration increments `_attempts`, so `maxAttempts` fuel is enough
for any start state; the fuel-exhausted case coincides with the
`_attempts ≥ max` exit).  A successful `_try` recomputes `isComplete`
as `placements.length === this.roomSize`; a failed one runs
`_backtrack`, whose own throw is *not* caught and aborts the loop
(`Except.error`).  The result's boolean is the final `isComplete`:
`true` is the Complete report, `false` the
"failed to generate a valid layout" report. -/
def genLoop (ts : List Room) (od : OpenDirs) (σ : Nat → Nat) :
    Nat → GenState → Except Unit (GenState × Bool)
  | 0, g => Except.ok (g, false)
  | fuel + 1, g =>
    if g.attempts < maxAttempts then
      let g1 := incAttempts g
      match _try ts od σ g1 with
      | some g2 =>
        if g2.placements.length = g2.roomSize then Except.ok (g2, true)
        else genLoop ts od σ fuel g2
      | none =>
        match _backtrack g1 with
        | some g2 => genLoop ts od σ fuel g2
        | none => Except.error ()
    else Except.ok (g, false)

/-- `Generator#_generate` (src/scripts/room.mjs lines 556-573) from a
given state. -/
def _generate (ts : List Room) (od : OpenDirs) (σ : Nat → Nat) (g : GenState) :
    Except Unit (GenState × Bool) :=
  genLoop ts od σ maxAttempts g

/-- One tile record pushed by `_export` (src/scripts/room.mjs
lines 870-880). -/
structure TileData where
  x : Nat
  y : Nat
  width : Nat
  height : Nat
  rotation : Nat
  mirrorX : Bool
  mirrorY : Bool
  img : Option String
  locked : Bool
deriving DecidableEq, Repr

/-- The configuration object built by `_export` (src/scripts/room.mjs
lines 855-863).  A `none` entry in `walls` models the JavaScript
`undefined` that `concat(d.walls.n)` appends when `d.walls.n` is
undefined (line 895 runs unguarded). -/
structure ExportConfig where
  width : Nat
  height : Nat
  size : Nat
  padding : Nat
  backgroundColor : String
  tiles : List TileData
  walls : List (Option Wall)
deriving DecidableEq, Repr

/-- The `!d?.img` skip test of `_export` (line 868), negated: the cell
is exported when its data holds a truthy (non-empty) image reference. -/
def imgTruthy (d : RoomData) : Bool :=
  match d.img with
  | some sref => sref ≠ ""
  | none => false

/-- The in-place offset `c[0] += x*s; c[1] += y*s; c[2] += x*s;
c[3] += y*s` applied to one wall (lines 888-891 and analogues). -/
def shiftWall (dx dy : Int) (w : Wall) : Wall :=
  { c0 := w.c0 + dx, c1 := w.c1 + dy, c2 := w.c2 + dx, c3 := w.c3 + dy }

/-- The tile record `_export` pushes for the cell at `c` holding data
`d`, with `s = roomSize * gridSize` (lines 869-880). -/
def mkTileData (s : Nat) (c : Coord) (d : RoomData) : TileData :=
  { x := c.1 * s
    y := c.2 * s
    width := s
    height := s
    rotation := d.rotation
    mirrorX := d.mirrorX
    mirrorY := d.mirrorY
    img := d.img
    locked := true }

/-- The wall handling of `_export` for one exported cell
(src/scripts/room.mjs lines 884-929): the walls appended to the output
and the cell's mutated data.

* rotation 0 (or undefined): when `walls.n` exists it is offset in place
  and appended — and then appended a *second* time by the unguarded
  concat on line 895; when it does not exist (flat walls), that same
  unguarded concat appends the JavaScript `undefined` (`none`).
* rotation 90: `walls.e` offset in place and appended once.
* rotation 180 / 270: `walls.s` / `walls.w` offset in place (the loop
  bound is `d.walls.n.length`, so only the first `n.length` entries are
  offset; on data from `_rotateWalls` all four lists have equal length)
  and appended once.
* any other rotation value: nothing is appended. -/
def exportWalls (dx dy : Int) (d : RoomData) : List (Option Wall) × RoomData :=
  if d.rotation = 0 then
    match d.walls with
    | WallsData.byDir wn we ws ww =>
      let wn' := wn.map (shiftWall dx dy)
      (wn'.map some ++ wn'.map some, { d with walls := WallsData.byDir wn' we ws ww })
    | WallsData.flat _ => ([none], d)
  else if d.rotation = 90 then
    match d.walls with
    | WallsData.byDir wn we ws ww =>
      let we' := we.map (shiftWall dx dy)
      (we'.map some, { d with walls := WallsData.byDir wn we' ws ww })
    | WallsData.flat _ => ([], d)
  else if d.rotation = 180 then
    match d.walls with
    | WallsData.byDir wn we ws ww =>
      let ws' := ws.mapIdx fun i w => if i < wn.length then shiftWall dx dy w else w
      (ws'.map some, { d with walls := WallsData.byDir wn we ws' ww })
    | WallsData.flat _ => ([], d)
  else if d.rotation = 270 then
    match d.walls with
    | WallsData.byDir wn we ws ww =>
      let ww' := ww.mapIdx fun i w => if i < wn.length then shiftWall dx dy w else w
      (ww'.map some, { d with walls := WallsData.byDir wn we ws ww' })
    | WallsData.flat _ => ([], d)
  else ([], d)

/-- One pass of `_export`'s nested cell loop (src/scripts/room.mjs
lines 866-931): skip `null` cells and cells without a truthy image;
otherwise push the tile record, and append the (mutated) walls,
threading the mutated layout. -/
def exportStep (roomSize gridSize : Nat)
    (acc : ExportConfig × (Coord → Option RoomData)) (c : Coord) :
    ExportConfig × (Coord → Option RoomData) :=
  match acc.2 c with
  | none => acc
  | some d =>
    if imgTruthy d then
      let s := roomSize * gridSize
      let tile := mkTileData s c d
      let ws := exportWalls ((c.1 * s : Nat) : Int) ((c.2 * s : Nat) : Int) d
      ({ acc.1 with
          tiles := acc.1.tiles ++ [tile]
          walls := acc.1.walls ++ ws.1 },
        setCell acc.2 c (some ws.2))
    else acc

/-- `Generator#_export` (src/scripts/room.mjs lines 851-935): the
exported scene configuration, together with the generator state as the
call leaves it (its layout's wall data mutated in place). -/
def _export (g : GenState) : ExportConfig × GenState :=
  let s := _getCanvasSize g
  let init : ExportConfig :=
    { width := s
      height := s
      size := g.gridSize
      padding := 0
      backgroundColor := "#000000"
      tiles := []
      walls := [] }
  let res := (gridCoords g.nRooms).foldl (exportStep g.roomSize g.gridSize) (init, g.layout)
  (res.1, { g with layout := res.2 })

/-- The number of non-empty (non-`null`) cells of the layout grid. -/
def countNonEmpty (g : GenState) : Nat :=
  (gridCoords g.nRooms).countP fun c => (g.layout c).isSome

/-- The number of empty (`null`) cells of the layout grid. -/
def countEmpty (g : GenState) : Nat :=
  (gridCoords g.nRooms).countP fun c => (g.layout c).isNone

/-- Element-wise matching rule as claim C1 words it: the constraint
element is `Unknown`; or it is `Closed` and the candidate element is
`Closed`; or it is `Open` and the candidate element is `Open` (the open
kinds being irrelevant). -/
def edgeMatchSpec (cand cons : EdgeData) : Prop :=
  cons = EdgeData.Unknown ∨
  (cons = EdgeData.Closed ∧ cand = EdgeData.Closed) ∨
  ((∃ k, cons = EdgeData.Open k) ∧ (∃ k, cand = EdgeData.Open k))

/-- All boundary units of a room data record are `Closed`. -/
def allEdgesClosed (d : RoomData) : Prop :=
  ∀ x ∈ d.edges.n ++ d.edges.e ++ d.edges.s ++ d.edges.w, x = EdgeData.Closed

/-- The generator states reachable from a freshly configured generator by
the two moves of the `_generate` loop body: a successful placement
attempt, or a failed attempt followed by a successful backtrack (each
attempt first increments the attempt counter, lines 561-562).  The
random stream of each step is arbitrary, covering every sequence of
`Math.random()` outcomes, and the relation is parametrised over the
catalog and over any stand-in for the missing `Room.getOpenDirections`. -/
inductive Reach (ts : List Room) (od : OpenDirs) : GenState → Prop where
  | init (size : SizeOpt) (roomSize gridSize : Nat) :
      Reach ts od (configureG size roomSize gridSize)
  | tryOk {g g' : GenState} (σ : Nat → Nat) :
      Reach ts od g → _try ts od σ (incAttempts g) = some g' → Reach ts od g'
  | tryFail {g g' : GenState} (σ : Nat → Nat) :
      Reach ts od g → _try ts od σ (incAttempts g) = none →
      _backtrack (incAttempts g) = some g' → Reach ts od g'

/-- The structural invariant of a generator state: a positive grid
dimension, no coordinate recorded twice in the history, the layout's
non-`null` cells exactly the recorded coordinates, and every recorded
coordinate inside the grid. -/
def GenInv (g : GenState) : Prop :=
  0 < g.nRooms ∧
  g.placements.Nodup ∧
  (∀ c : Coord, (g.layout c).isSome ↔ c ∈ g.placements) ∧
  (∀ c ∈ g.placements, c.1 < g.nRooms ∧ c.2 < g.nRooms)

/-- Every placed cell of the layout holds the blank permutation. -/
def AllBlank (g : GenState) : Prop :=
  ∀ c d, g.layout c = some d → d = getBlankPermutation

/-- All four edge lists of a constraints record have the given length. -/
def edgeLensEq (E : EdgeConstraints) (size : Nat) : Prop :=
  E.n.length = size ∧ E.e.length = size ∧ E.s.length = size ∧ E.w.length = size

/-- A concrete edge-constraints record with four pairwise different
lists, used to exhibit counterexamples. -/
def edgesW : EdgeConstraints :=
  { n := [EdgeData.Open "a", EdgeData.Closed]
    e := [EdgeData.Open "b", EdgeData.Closed]
    s := [EdgeData.Closed, EdgeData.Open "c"]
    w := [EdgeData.Open "d", EdgeData.Unknown] }

/-- A concrete catalog room used by witnesses: a 1×1 tile whose single
boundary unit is closed on every side. -/
def roomW : Room :=
  { data :=
      { name := "t"
        size := 1
        edges := { n := [EdgeData.Closed], e := [EdgeData.Closed]
                   s := [EdgeData.Closed], w := [EdgeData.Closed] }
        walls := [] }
    img := "tiles/t.webp" }

/-- A catalog room whose single open boundary unit has an empty `type`
(an open edge object with a missing/empty kind). -/
def roomOpenNoKind : Room :=
  { data :=
      { name := "u"
        size := 1
        edges := { n := [EdgeData.Open ""], e := [EdgeData.Closed]
                   s := [EdgeData.Closed], w := [EdgeData.Closed] }
        walls := [] }
    img := "tiles/u.webp" }

/-- A room-data record open on every side (single-unit boundary). -/
def openRoomData : RoomData :=
  { name := "open"
    size := 1
    edges := { n := [EdgeData.Open "h"], e := [EdgeData.Open "h"]
               s := [EdgeData.Open "h"], w := [EdgeData.Open "h"] }
    walls := WallsData.flat []
    rotation := 0
    img := none
    mirrorX := false
    mirrorY := false }

/-- A generator state with an empty placement history whose cells all
hold fully open rooms: the next placement attempt cannot satisfy the
all-open constraints with an empty catalog, and backtracking then finds
no history to pop. -/
def gBacktrackW : GenState :=
  { nRooms := 3
    roomSize := 1
    gridSize := 200
    layout := fun _ => some openRoomData
    placements := []
    attempts := 0
    rix := 0 }

/-- A placed room variant carrying an image and one north wall segment,
as `getPermutations` produces for the unrotated orientation. -/
def dPlacedW : RoomData :=
  { name := "a"
    size := 9
    edges := { n := List.replicate 9 EdgeData.Closed, e := List.replicate 9 EdgeData.Closed
               s := List.replicate 9 EdgeData.Closed, w := List.replicate 9 EdgeData.Closed }
    walls := WallsData.byDir [{ c0 := 0, c1 := 0, c2 := 5, c3 := 5 }] [] [] []
    rotation := 0
    img := some "tiles/a.webp"
    mirrorX := false
    mirrorY := false }

/-- A finished 3×3 grid with a single placed cell at (1, 1). -/
def gExportW : GenState :=
  { nRooms := 3
    roomSize := 9
    gridSize := 200
    layout := fun c => if c = (1, 1) then some dPlacedW else none
    placements := [(1, 1)]
    attempts := 1
    rix := 0 }

/-! ## Theorems -/

theorem testEdge_eq_forall (edge constraint : List EdgeData) :
    _testEdge edge constraint = true ↔
      ∀ i v, constraint.get? i = some v → edgeCheck (edge.get? i) v = true := by
  unfold _testEdge
  rw [List.all_eq_true]
  constructor
  · intro H i v hv
    exact H (i, v) (List.mem_enum_iff_get?.mpr hv)
  · intro H x hx
    exact H x.1 x.2 (List.mem_enum_iff_get?.mp hx)

theorem edgeCheck_iff_spec (e v : EdgeData) :
    edgeCheck (some e) v = true ↔ edgeMatchSpec e v := by
  cases e <;> cases v <;> simp [edgeCheck, edgeMatchSpec]

/-- C1: for candidate and constraint edge sequences of equal length, the
edge-matching test `_testEdge` succeeds iff at every position the
constraint element is `Unknown`, or is `Closed` with a `Closed`
candidate, or is `Open` with an `Open` candidate of any kind; and
`_testPermutation` succeeds iff `_testEdge` holds for all four cardinal
directions. -/
theorem testEdge_matches_spec (edge constraint : List EdgeData)
    (h : edge.length = constraint.length) :
    (_testEdge edge constraint = true ↔
      ∀ i (hi : i < constraint.length),
        edgeMatchSpec (edge.get ⟨i, by omega⟩) (constraint.get ⟨i, hi⟩)) ∧
    (∀ (p : RoomData) (c : EdgeConstraints),
      _testPermutation p c = true ↔
        (_testEdge p.edges.n c.n = true ∧ _testEdge p.edges.e c.e = true ∧
         _testEdge p.edges.s c.s = true ∧ _testEdge p.edges.w c.w = true)) := by
  constructor
  · rw [testEdge_eq_forall]
    constructor
    · intro H i hi
      have hie : i < edge.length := by omega
      have h2 : edge.get? i = some (edge.get ⟨i, hie⟩) := List.get?_eq_get hie
      have hv := H i (constraint.get ⟨i, hi⟩) (List.get?_eq_get hi)
      rw [h2] at hv
      exact (edgeCheck_iff_spec _ _).mp hv
    · intro H i v hv
      have hi : i < constraint.length := by
        by_contra hc
        rw [List.get?_eq_none.mpr (by omega)] at hv
        exact Option.noConfusion hv
      have hie : i < edge.length := by omega
      have hvv : v = constraint.get ⟨i, hi⟩ := by
        have := List.get?_eq_get hi
        rw [this] at hv
        exact (Option.some.injEq _ _).mp hv.symm
      rw [List.get?_eq_get hie, hvv]
      exact (edgeCheck_iff_spec _ _).mpr (H i hi)
  · intro p c
    simp [_testPermutation, Bool.and_eq_true, and_assoc]

/-- Witness for C1 at concrete sequences of length three. -/
theorem testEdge_matches_spec_witness :
    ([EdgeData.Open "hallway", EdgeData.Closed, EdgeData.Closed].length =
      [EdgeData.Open "door", EdgeData.Unknown, EdgeData.Closed].length) ∧
    ((_testEdge [EdgeData.Open "hallway", EdgeData.Closed, EdgeData.Closed]
        [EdgeData.Open "door", EdgeData.Unknown, EdgeData.Closed] = true ↔
      ∀ i (hi : i < [EdgeData.Open "door", EdgeData.Unknown, EdgeData.Closed].length),
        edgeMatchSpec
          ([EdgeData.Open "hallway", EdgeData.Closed, EdgeData.Closed].get ⟨i, by simpa using hi⟩)
          ([EdgeData.Open "door", EdgeData.Unknown, EdgeData.Closed].get ⟨i, hi⟩)) ∧
    (∀ (p : RoomData) (c : EdgeConstraints),
      _testPermutation p c = true ↔
        (_testEdge p.edges.n c.n = true ∧ _testEdge p.edges.e c.e = true ∧
         _testEdge p.edges.s c.s = true ∧ _testEdge p.edges.w c.w = true))) :=
  ⟨rfl, testEdge_matches_spec
    [EdgeData.Open "hallway", EdgeData.Closed, EdgeData.Closed]
    [EdgeData.Open "door", EdgeData.Unknown, EdgeData.Closed] rfl⟩

/-- Counterexample to C3: for the 90° rotation (`direction = "e"`,
`k = 1`) of a concrete 2-unit tile, `_rotateEdges` disagrees with the
claimed mapping (`new[direction] = old[direction rotated by -k]` with
the north and south sequences reversed): the source assigns
`rotated.n = edges.e` verbatim, not the reverse of `edges.w`. -/
theorem rotateEdges_spec_counterexample :
    _rotateEdges Dir.e edgesW ≠ specRotateEdges 1 edgesW := by
  decide

/-- C3 (amended): for every edge-constraints record, rotation by 90°k
(`direction` at index k = 1, 2, 3) maps the list at direction index i to
the source list at index (i + k) mod 4, each sequence taken verbatim
with no reversal; consequently the 180° rotation is the square of the
90° one and the 90° rotation has period four. -/
theorem rotateEdges_mapping (E : EdgeConstraints) :
    _rotateEdges Dir.e E = { n := E.e, e := E.s, s := E.w, w := E.n } ∧
    _rotateEdges Dir.s E = { n := E.s, e := E.w, s := E.n, w := E.e } ∧
    _rotateEdges Dir.w E = { n := E.w, e := E.n, s := E.e, w := E.s } ∧
    _rotateEdges Dir.s E = _rotateEdges Dir.e (_rotateEdges Dir.e E) ∧
    _rotateEdges Dir.e (_rotateEdges Dir.e (_rotateEdges Dir.e (_rotateEdges Dir.e E))) = E :=
  ⟨rfl, rfl, rfl, rfl, rfl⟩

/-- C4: `getPermutations` returns exactly 12 variants — the four
rotations with no mirror, then the four with the horizontal mirror only,
then the four with the vertical mirror only (never both mirrors) — and
when the source tile's four edge lists have length equal to its declared
size, so do all four edge lists of every returned variant. -/
theorem getPermutations_twelve (r : Room) (h : edgeLensEq r.data.edges r.data.size) :
    (getPermutations r).length = 12 ∧
    ((getPermutations r).map fun p => (p.mirrorX, p.mirrorY)) =
      [(false, false), (false, false), (false, false), (false, false),
       (true, false), (true, false), (true, false), (true, false),
       (false, true), (false, true), (false, true), (false, true)] ∧
    ∀ p ∈ getPermutations r, edgeLensEq p.edges r.data.size := by
  obtain ⟨h1, h2, h3, h4⟩ := h
  refine ⟨rfl, rfl, ?_⟩
  intro p hp
  simp only [getPermutations, DIRECTIONS, List.map_cons, List.map_nil, List.mem_append,
    List.mem_cons, List.not_mem_nil, or_false] at hp
  rcases hp with ((hp | hp | hp | hp) | (hp | hp | hp | hp)) | (hp | hp | hp | hp) <;>
    subst hp <;>
    simp [edgeLensEq, rotate, _rotateEdges, edgesAt, dirAt, dirIndex,
      flipHorizontal, flipVertical, h1, h2, h3, h4]

/-- Witness for C4 at a concrete 1×1 room. -/
theorem getPermutations_twelve_witness :
    edgeLensEq roomW.data.edges roomW.data.size ∧
    ((getPermutations roomW).length = 12 ∧
    ((getPermutations roomW).map fun p => (p.mirrorX, p.mirrorY)) =
      [(false, false), (false, false), (false, false), (false, false),
       (true, false), (true, false), (true, false), (true, false),
       (false, true), (false, true), (false, true), (false, true)] ∧
    ∀ p ∈ getPermutations roomW, edgeLensEq p.edges roomW.data.size) :=
  ⟨⟨rfl, rfl, rfl, rfl⟩, getPermutations_twelve roomW ⟨rfl, rfl, rfl, rfl⟩⟩

theorem nOpen_fold (l : List EdgeData) (a : Nat)
    (h : ∀ x ∈ l, x ≠ EdgeData.Unknown) :
    l.foldl
      (fun acc e => do
        let n ← acc
        let b ← nOpenEdge e
        pure (if b then n + 1 else n))
      (some a) =
    some (a + l.countP fun e =>
      match e with
      | EdgeData.Open kind => kind ≠ ""
      | _ => false) := by
  induction l generalizing a with
  | nil => simp
  | cons x xs ih =>
    have hx := h x (List.mem_cons_self _ _)
    have hxs : ∀ y ∈ xs, y ≠ EdgeData.Unknown := fun y hy => h y (List.mem_cons_of_mem _ hy)
    rw [List.foldl_cons, List.countP_cons]
    cases x with
    | Unknown => exact absurd rfl hx
    | Closed =>
      have h1 : (do
          let n ← some a
          let b ← nOpenEdge EdgeData.Closed
          pure (if b then n + 1 else n)) = some a := rfl
      rw [h1, ih a hxs]
      simp
    | Open k =>
      by_cases hk : k = ""
      · subst hk
        have h1 : (do
            let n ← some a
            let b ← nOpenEdge (EdgeData.Open "")
            pure (if b then n + 1 else n)) = some a := rfl
        rw [h1, ih a hxs]
        simp
      · have h1 : (do
            let n ← some a
            let b ← nOpenEdge (EdgeData.Open k)
            pure (if b then n + 1 else n)) = some (a + 1) := by
          simp [nOpenEdge, hk]
        rw [h1, ih (a + 1) hxs]
        simp [hk]
        omega

theorem nOpen_eq_truthy (data : RoomBase) (h : noUnknownEdges data) :
    nOpen data = some (truthyOpenCount data) := by
  unfold nOpen truthyOpenCount
  rw [nOpen_fold _ 0 h]
  simp

/-- Counterexample to C7: a catalog holding one tile whose single open
boundary unit carries an empty opening kind.  The claim counts the unit
regardless of kind (so the tile meets a minimum bound of 1), but the
source's `nOpen` requires a truthy `type` and skips it, so `findRooms`
excludes the tile. -/
theorem findRooms_openKind_counterexample :
    specOpenCount roomOpenNoKind.data = 1 ∧
    specFindRooms [roomOpenNoKind] (some 1) none = [roomOpenNoKind] ∧
    findRooms [roomOpenNoKind] (some 1) none = some [] := by
  decide

/-- C7 (amended): on a catalog whose tiles have no `Unknown` boundary
unit (otherwise `nOpen` throws a `TypeError`), `findRooms` returns, in
insertion order, exactly the tiles whose number of `Open` boundary units
*with a truthy (non-empty) opening kind* lies within the optional
bounds, an absent bound imposing no constraint. -/
theorem findRooms_filter (rooms : List Room) (minOpen maxOpen : Option Nat)
    (h : ∀ r ∈ rooms, noUnknownEdges r.data) :
    findRooms rooms minOpen maxOpen =
      some (rooms.filter fun r => boundsOK (truthyOpenCount r.data) minOpen maxOpen) := by
  induction rooms with
  | nil => rfl
  | cons r rest ih =>
    have hr := h r (List.mem_cons_self _ _)
    have hrest : ∀ x ∈ rest, noUnknownEdges x.data :=
      fun x hx => h x (List.mem_cons_of_mem _ hx)
    unfold findRooms
    rw [nOpen_eq_truthy r.data hr]
    rw [ih hrest]
    simp only [Option.bind_some, List.filter_cons, boundsOK]
    cases hk : ((match minOpen with
       | some m => decide (m ≤ truthyOpenCount r.data)
       | none => true) &&
      (match maxOpen with
       | some m => decide (truthyOpenCount r.data ≤ m)
       | none => true)) <;> simp [hk]

/-- Witness for C7 on a concrete two-tile catalog. -/
theorem findRooms_filter_witness :
    (∀ r ∈ [roomW, roomOpenNoKind], noUnknownEdges r.data) ∧
    findRooms [roomW, roomOpenNoKind] (some 0) none =
      some ([roomW, roomOpenNoKind].filter fun r =>
        boundsOK (truthyOpenCount r.data) (some 0) none) := by
  have h : ∀ r ∈ [roomW, roomOpenNoKind], noUnknownEdges r.data := by
    intro r hr
    rcases List.mem_cons.mp hr with h1 | h1
    · subst h1; unfold noUnknownEdges; decide
    · rcases List.mem_cons.mp h1 with h2 | h2
      · subst h2; unfold noUnknownEdges; decide
      · exact absurd h2 (List.not_mem_nil r)
  exact ⟨h, findRooms_filter [roomW, roomOpenNoKind] (some 0) none h⟩

/-- C2 (code-bug evidence): on the medium preset (5×5 grid) with an
empty catalog and the all-zero random stream, the generation loop exits
reporting Complete (`true`) with a placement history of length 9 — the
loop compares `placements.length` against `this.roomSize` (9, the tile
side length), not against the number of grid cells — while only 9 of
the 25 cells are non-empty and 16 remain Empty. -/
theorem generate_complete_medium_partial :
    (genLoop [] getOpenDirections (fun _ => 0) 500 (configureG SizeOpt.medium 9 200)).map
      (fun p => (p.2, p.1.placements.length, countNonEmpty p.1, countEmpty p.1, p.1.attempts))
      = Except.ok (true, 9, 9, 16, 9) := rfl

/-- C9: backtracking raises exactly when the placement history is empty,
and the generation loop does not catch that error — a failed attempt at
a state with empty history makes the loop return the error immediately —
while a non-empty history always lets `_backtrack` succeed. -/
theorem backtrack_error_spec :
    (∀ g : GenState, _backtrack g = none ↔ g.placements = []) ∧
    (∀ (ts : List Room) (od : OpenDirs) (σ : Nat → Nat) (fuel : Nat) (g : GenState),
      g.attempts < maxAttempts → _try ts od σ (incAttempts g) = none →
      g.placements = [] →
      genLoop ts od σ (fuel + 1) g = Except.error ()) ∧
    (∀ g : GenState, g.placements ≠ [] → ∃ g', _backtrack g = some g') := by
  refine ⟨?_, ?_, ?_⟩
  · intro g
    unfold _backtrack
    cases hl : g.placements.getLast? with
    | none => simpa using List.getLast?_eq_none_iff.mp hl
    | some c =>
      simp only []
      constructor
      · intro hcontra; exact Option.noConfusion hcontra
      · intro hnil
        rw [hnil] at hl
        exact Option.noConfusion hl
  · intro ts od σ fuel g hatt htry hnil
    have hb : _backtrack (incAttempts g) = none := by
      unfold _backtrack incAttempts
      simp [hnil]
    unfold genLoop
    rw [if_pos hatt]
    show (match _try ts od σ (incAttempts g) with
      | some g2 => if g2.placements.length = g2.roomSize then Except.ok (g2, true)
          else genLoop ts od σ fuel g2
      | none =>
        match _backtrack (incAttempts g) with
        | some g2 => genLoop ts od σ fuel g2
        | none => Except.error ()) = Except.error ()
    rw [htry, hb]
  · intro g hne
    unfold _backtrack
    cases hl : g.placements.getLast? with
    | none => exact absurd (List.getLast?_eq_none_iff.mp hl) hne
    | some c => exact ⟨_, rfl⟩

/-- Witness for C9: a state with empty history whose every cell holds a
fully open room — the attempt fails (no permutation of the empty catalog
nor the blank matches the all-open constraints) and the loop surfaces the
backtrack error. -/
theorem backtrack_error_spec_witness :
    (gBacktrackW.attempts < maxAttempts ∧
      _try [] getOpenDirections (fun _ => 0) (incAttempts gBacktrackW) = none ∧
      gBacktrackW.placements = []) ∧
    genLoop [] getOpenDirections (fun _ => 0) 1 gBacktrackW = Except.error () :=
  ⟨⟨by decide, rfl, rfl⟩,
    backtrack_error_spec.2.1 [] getOpenDirections (fun _ => 0) 0 gBacktrackW
      (by decide) rfl rfl⟩

theorem addUnique_mem (l : List Coord) (c a : Coord) :
    a ∈ addUnique l c ↔ a ∈ l ∨ a = c := by
  unfold addUnique
  by_cases h : c ∈ l
  · rw [if_pos h]
    constructor
    · exact fun ha => Or.inl ha
    · rintro (ha | rfl)
      · exact ha
      · exact h
  · rw [if_neg h]
    simp [List.mem_append]

theorem removeAll_mem (l : List Coord) (c a : Coord) :
    a ∈ removeAll l c ↔ a ∈ l ∧ a ≠ c := by
  unfold removeAll
  simp [List.mem_filter]

theorem progressStep_fst (od : OpenDirs) (g : GenState) (cr : List Coord × List Coord)
    (c : Coord) : (progressStep od g cr c).1 = addUnique cr.1 c := rfl

theorem progress_completed_mem (od : OpenDirs) (g : GenState) (pl : List Coord) :
    ∀ (cr : List Coord × List Coord) (x : Coord),
      x ∈ (pl.foldl (progressStep od g) cr).1 ↔ x ∈ cr.1 ∨ x ∈ pl := by
  induction pl with
  | nil => intro cr x; simp
  | cons c rest ih =>
    intro cr x
    rw [List.foldl_cons, ih (progressStep od g cr c) x, progressStep_fst, addUnique_mem]
    simp only [List.mem_cons]
    tauto

theorem requireStep_inv (g : GenState) (completed : List Coord) (c : Coord)
    (req : List Coord) (d : Dir)
    (h : ∀ x ∈ req, x ∉ completed ∧ x.1 < g.nRooms ∧ x.2 < g.nRooms) :
    ∀ x ∈ requireStep g completed c req d,
      x ∉ completed ∧ x.1 < g.nRooms ∧ x.2 < g.nRooms := by
  unfold requireStep
  intro x hx
  dsimp only at hx
  split at hx
  · rename_i hcond
    rcases (addUnique_mem _ _ _).mp hx with h1 | h1
    · exact h x h1
    · subst h1
      obtain ⟨h0x, hx1, h0y, hy1, hnc⟩ := hcond
      refine ⟨hnc, ?_, ?_⟩
      · have := (Int.toNat_lt h0x).mpr (by omega :
          ((c.1 : Int) + (adjacentOffset d).1) < (g.nRooms : Int))
        simpa using this
      · have := (Int.toNat_lt h0y).mpr (by omega :
          ((c.2 : Int) + (adjacentOffset d).2) < (g.nRooms : Int))
        simpa using this
  · exact h x hx

theorem requireFold_inv (g : GenState) (completed : List Coord) (c : Coord)
    (dirs : List Dir) :
    ∀ (req : List Coord),
      (∀ x ∈ req, x ∉ completed ∧ x.1 < g.nRooms ∧ x.2 < g.nRooms) →
      ∀ x ∈ dirs.foldl (requireStep g completed c) req,
        x ∉ completed ∧ x.1 < g.nRooms ∧ x.2 < g.nRooms := by
  induction dirs with
  | nil => intro req h x hx; exact h x hx
  | cons d rest ih =>
    intro req h x hx
    rw [List.foldl_cons] at hx
    exact ih _ (requireStep_inv g completed c req d h) x hx

theorem progress_required_inv (od : OpenDirs) (g : GenState) (pl : List Coord) :
    ∀ (cr : List Coord × List Coord),
      (∀ x ∈ cr.2, x ∉ cr.1 ∧ x.1 < g.nRooms ∧ x.2 < g.nRooms) →
      ∀ x ∈ (pl.foldl (progressStep od g) cr).2,
        x ∉ (pl.foldl (progressStep od g) cr).1 ∧ x.1 < g.nRooms ∧ x.2 < g.nRooms := by
  induction pl with
  | nil => intro cr h x hx; exact h x hx
  | cons c rest ih =>
    intro cr h
    rw [List.foldl_cons]
    apply ih
    intro x hx
    have hstep : ∀ y ∈ (progressStep od g cr c).2,
        y ∉ (progressStep od g cr c).1 ∧ y.1 < g.nRooms ∧ y.2 < g.nRooms := by
      intro y hy
      rw [progressStep_fst]
      refine requireFold_inv g (addUnique cr.1 c) c _ _ ?_ y hy
      intro z hz
      rcases (removeAll_mem _ _ _).mp hz with ⟨hz1, hz2⟩
      obtain ⟨hz3, hz4⟩ := h z hz1
      refine ⟨?_, hz4⟩
      intro hmem
      rcases (addUnique_mem _ _ _).mp hmem with h1 | h1
      · exact hz3 h1
      · exact hz2 h1
    exact hstep x hx

theorem getProgress_completed (od : OpenDirs) (g : GenState) (x : Coord) :
    x ∈ (_getProgress od g).completed ↔ x ∈ g.placements := by
  unfold _getProgress
  simpa using progress_completed_mem od g g.placements ([], []) x

theorem getProgress_required (od : OpenDirs) (g : GenState) :
    ∀ x ∈ (_getProgress od g).required,
      x ∉ g.placements ∧ x.1 < g.nRooms ∧ x.2 < g.nRooms := by
  intro x hx
  have hx' : x ∈ (g.placements.foldl (progressStep od g) ([], [])).2 := hx
  have h := progress_required_inv od g g.placements ([], []) (by simp) x hx'
  refine ⟨fun hmem => h.1 ?_, h.2⟩
  exact (progress_completed_mem od g g.placements ([], []) x).mpr (Or.inr hmem)

theorem gridCoords_mem (n : Nat) (c : Coord) :
    c ∈ gridCoords n ↔ c.1 < n ∧ c.2 < n := by
  unfold gridCoords
  rw [List.mem_flatMap]
  constructor
  · rintro ⟨x, hx, hc⟩
    rw [List.mem_map] at hc
    obtain ⟨y, hy, rfl⟩ := hc
    exact ⟨List.mem_range.mp hx, List.mem_range.mp hy⟩
  · rintro ⟨h1, h2⟩
    exact ⟨c.1, List.mem_range.mpr h1, List.mem_map.mpr ⟨c.2, List.mem_range.mpr h2, rfl⟩⟩

theorem gridCoords_eq_product (n : Nat) :
    gridCoords n = (List.range n) ×ˢ (List.range n) := rfl

theorem gridCoords_nodup (n : Nat) : (gridCoords n).Nodup := by
  rw [gridCoords_eq_product]
  exact (List.nodup_range n).product (List.nodup_range n)

theorem gridCoords_length (n : Nat) : (gridCoords n).length = n * n := by
  rw [gridCoords_eq_product, List.length_product, List.length_range]

theorem getProgress_incomplete (od : OpenDirs) (g : GenState) :
    ∀ x ∈ (_getProgress od g).incomplete,
      x ∉ g.placements ∧ x.1 < g.nRooms ∧ x.2 < g.nRooms := by
  intro x hx
  have hx' : x ∈ (gridCoords g.nRooms).filter
      (fun c => c ∉ (g.placements.foldl (progressStep od g) ([], [])).1) := hx
  rw [List.mem_filter] at hx'
  obtain ⟨hgrid, hnc⟩ := hx'
  rw [decide_eq_true_eq] at hnc
  refine ⟨?_, ((gridCoords_mem _ _).mp hgrid).1, ((gridCoords_mem _ _).mp hgrid).2⟩
  intro hmem
  exact hnc ((progress_completed_mem od g g.placements ([], []) x).mpr (Or.inr hmem))

theorem getNextLocation_props (od : OpenDirs) (σ : Nat → Nat) (g : GenState)
    (hpos : 0 < g.nRooms) (c : Coord) (ty : LocType) (g1 : GenState)
    (h : _getNextLocation od σ g = some (c, ty, g1)) :
    c ∉ g.placements ∧ c.1 < g.nRooms ∧ c.2 < g.nRooms ∧
    g1.nRooms = g.nRooms ∧ g1.roomSize = g.roomSize ∧ g1.gridSize = g.gridSize ∧
    g1.layout = g.layout ∧ g1.placements = g.placements ∧ g1.attempts = g.attempts := by
  unfold _getNextLocation at h
  by_cases hemp : g.placements.isEmpty
  · rw [if_pos hemp] at h
    simp only [Option.some.injEq, Prod.mk.injEq] at h
    obtain ⟨hc, _, hg⟩ := h
    have hnil : g.placements = [] := List.isEmpty_iff.mp hemp
    subst hg
    refine ⟨by rw [hnil]; exact List.not_mem_nil c, ?_, ?_, rfl, rfl, rfl, rfl, rfl, rfl⟩
    · rw [← hc]; exact Nat.div_lt_self hpos (by omega)
    · rw [← hc]; exact Nat.div_lt_self hpos (by omega)
  · rw [if_neg hemp] at h
    by_cases hreq : (_getProgress od g).required ≠ []
    · rw [dif_pos hreq] at h
      simp only [draw, Option.some.injEq, Prod.mk.injEq] at h
      obtain ⟨hc, _, hg⟩ := h
      have hmem : c ∈ (_getProgress od g).required := by
        rw [← hc]; exact List.get_mem _ _ _
      obtain ⟨h1, h2, h3⟩ := getProgress_required od g c hmem
      subst hg
      exact ⟨h1, h2, h3, rfl, rfl, rfl, rfl, rfl, rfl⟩
    · rw [dif_neg hreq] at h
      by_cases hinc : (_getProgress od g).incomplete ≠ []
      · rw [dif_pos hinc] at h
        simp only [draw, Option.some.injEq, Prod.mk.injEq] at h
        obtain ⟨hc, _, hg⟩ := h
        have hmem : c ∈ (_getProgress od g).incomplete := by
          rw [← hc]; exact List.get_mem _ _ _
        obtain ⟨h1, h2, h3⟩ := getProgress_incomplete od g c hmem
        subst hg
        exact ⟨h1, h2, h3, rfl, rfl, rfl, rfl, rfl, rfl⟩
      · rw [dif_neg hinc] at h
        exact Option.noConfusion h

theorem try_props (ts : List Room) (od : OpenDirs) (σ : Nat → Nat) (g g' : GenState)
    (hpos : 0 < g.nRooms) (h : _try ts od σ g = some g') :
    ∃ c, c ∉ g.placements ∧ c.1 < g.nRooms ∧ c.2 < g.nRooms ∧
      g'.placements = g.placements ++ [c] ∧
      (∃ chosen, g'.layout = setCell g.layout c (some chosen)) ∧
      g'.nRooms = g.nRooms ∧ g'.roomSize = g.roomSize ∧ g'.gridSize = g.gridSize ∧
      g'.attempts = g.attempts := by
  unfold _try at h
  cases hloc : _getNextLocation od σ g with
  | none => rw [hloc] at h; exact Option.noConfusion h
  | some trip =>
    obtain ⟨c, ty, g1⟩ := trip
    rw [hloc] at h
    obtain ⟨hc, hcx, hcy, hn, hrs, hgs, hlay, hpl, hat⟩ :=
      getNextLocation_props od σ g hpos c ty g1 hloc
    dsimp only at h
    split at h
    · exact Option.noConfusion h
    · split at h
      · exact Option.noConfusion h
      · simp only [draw, Option.some.injEq] at h
        subst h
        refine ⟨c, hc, hcx, hcy, ?_, ?_, ?_, ?_, ?_, ?_⟩
        · show g1.placements ++ [c] = g.placements ++ [c]
          rw [hpl]
        · rw [← hlay]
          exact ⟨_, rfl⟩
        · show g1.nRooms = g.nRooms
          exact hn
        · show g1.roomSize = g.roomSize
          exact hrs
        · show g1.gridSize = g.gridSize
          exact hgs
        · show g1.attempts = g.attempts
          exact hat

theorem genInv_try (ts : List Room) (od : OpenDirs) (σ : Nat → Nat) (g g' : GenState)
    (hg : GenInv g) (h : _try ts od σ g = some g') : GenInv g' := by
  obtain ⟨hpos, hnod, hiff, hbound⟩ := hg
  obtain ⟨c, hc, hcx, hcy, hpl, ⟨chosen, hlay⟩, hn, hrs, hgs, hat⟩ :=
    try_props ts od σ g g' hpos h
  refine ⟨by rw [hn]; exact hpos, ?_, ?_, ?_⟩
  · rw [hpl, List.nodup_append]
    refine ⟨hnod, List.nodup_singleton c, ?_⟩
    intro a ha hb
    rw [List.mem_singleton] at hb
    subst hb
    exact hc ha
  · intro c'
    rw [hpl, hlay]
    unfold setCell
    by_cases hcc : c' = c
    · subst hcc; simp
    · rw [if_neg hcc, hiff c']
      simp [List.mem_append, hcc]
  · intro c' hc'
    rw [hn]
    rw [hpl] at hc'
    rcases List.mem_append.mp hc' with h1 | h1
    · exact hbound c' h1
    · rw [List.mem_singleton] at h1
      subst h1
      exact ⟨hcx, hcy⟩

theorem genInv_backtrack (g g' : GenState) (hg : GenInv g)
    (h : _backtrack g = some g') : GenInv g' := by
  obtain ⟨hpos, hnod, hiff, hbound⟩ := hg
  unfold _backtrack at h
  cases hl : g.placements.getLast? with
  | none => rw [hl] at h; exact Option.noConfusion h
  | some c =>
    rw [hl] at h
    simp only [Option.some.injEq] at h
    subst h
    obtain ⟨ys, hys⟩ := List.getLast?_eq_some_iff.mp hl
    have hdrop : g.placements.dropLast = ys := by rw [hys]; simp
    have hnody : ys.Nodup := by
      rw [hys, List.nodup_append] at hnod
      exact hnod.1
    have hcny : c ∉ ys := by
      rw [hys, List.nodup_append] at hnod
      intro hmem
      exact hnod.2.2 hmem (List.mem_singleton.mpr rfl)
    refine ⟨hpos, ?_, ?_, ?_⟩
    · show (g.placements.dropLast).Nodup
      rw [hdrop]
      exact hnody
    · intro c'
      show (setCell g.layout c none c').isSome = true ↔ c' ∈ g.placements.dropLast
      unfold setCell
      by_cases hcc : c' = c
      · subst hcc
        simp [hdrop, hcny]
      · rw [if_neg hcc, hiff c', hdrop, hys]
        simp [List.mem_append, hcc]
    · intro c' hc'
      show c'.1 < g.nRooms ∧ c'.2 < g.nRooms
      apply hbound
      exact (List.dropLast_sublist g.placements).subset hc'

theorem genInv_incAttempts (g : GenState) (hg : GenInv g) : GenInv (incAttempts g) := hg

theorem genInv_reach (ts : List Room) (od : OpenDirs) (g : GenState)
    (h : Reach ts od g) : GenInv g := by
  induction h with
  | init size roomSize gridSize =>
    refine ⟨?_, List.nodup_nil, ?_, ?_⟩
    · cases size <;> simp [configureG, nRoomsOf]
    · intro c; simp [configureG]
    · intro c hc; exact absurd hc (List.not_mem_nil c)
  | tryOk σ hr htry ih =>
    exact genInv_try _ _ σ _ _ (genInv_incAttempts _ ih) htry
  | tryFail σ hr htry hback ih =>
    exact genInv_backtrack _ _ (genInv_incAttempts _ ih) hback

theorem countNonEmpty_eq_length (g : GenState) (hg : GenInv g) :
    countNonEmpty g = g.placements.length := by
  obtain ⟨hpos, hnod, hiff, hbound⟩ := hg
  unfold countNonEmpty
  rw [List.countP_congr (q := fun c => decide (c ∈ g.placements))
    (fun c _ => by simp [hiff c])]
  rw [List.countP_eq_length_filter]
  have hsub : ∀ c ∈ g.placements, c ∈ gridCoords g.nRooms := by
    intro c hc
    exact (gridCoords_mem _ c).mpr ⟨(hbound c hc).1, (hbound c hc).2⟩
  have hnodf : (List.filter (fun c => decide (c ∈ g.placements)) (gridCoords g.nRooms)).Nodup :=
    (gridCoords_nodup _).filter _
  have hset : (List.filter (fun c => decide (c ∈ g.placements)) (gridCoords g.nRooms)).toFinset
      = g.placements.toFinset := by
    ext c
    simp only [List.mem_toFinset, List.mem_filter, decide_eq_true_eq]
    exact ⟨fun hh => hh.2, fun hh => ⟨hsub c hh, hh⟩⟩
  have h1 := List.toFinset_card_of_nodup hnodf
  rw [hset, List.toFinset_card_of_nodup hnod] at h1
  omega

/-- C10: starting from a freshly configured generator, after any
sequence of placement attempts and backtracks (for every catalog, every
random stream and every candidate for the missing
`Room.getOpenDirections`), the placement history never records a cell
twice and its length equals the number of non-Empty cells of the layout
grid. -/
theorem placement_history_invariant (ts : List Room) (od : OpenDirs) (g : GenState)
    (h : Reach ts od g) :
    g.placements.Nodup ∧ g.placements.length = countNonEmpty g := by
  have hg := genInv_reach ts od g h
  exact ⟨hg.2.1, (countNonEmpty_eq_length g hg).symm⟩

/-- Witness for C10 at the freshly configured small generator. -/
theorem placement_history_invariant_witness :
    (configureG SizeOpt.small 9 200).placements.Nodup ∧
    (configureG SizeOpt.small 9 200).placements.length =
      countNonEmpty (configureG SizeOpt.small 9 200) :=
  placement_history_invariant [] getOpenDirections _ (Reach.init SizeOpt.small 9 200)

theorem testEdge_blank (L : List EdgeData) (hlen : L.length ≤ 9)
    (h : ∀ v ∈ L, v = EdgeData.Closed ∨ v = EdgeData.Unknown) :
    _testEdge (List.replicate 9 EdgeData.Closed) L = true := by
  rw [testEdge_eq_forall]
  intro i v hv
  have hi : i < L.length := by
    by_contra hc
    rw [List.get?_eq_none.mpr (by omega)] at hv
    exact Option.noConfusion hv
  have hrep : (List.replicate 9 EdgeData.Closed).get? i = some EdgeData.Closed := by
    rw [List.get?_eq_getElem?, List.getElem?_replicate, if_pos (by omega : i < 9)]
  rw [hrep]
  rcases h v (List.get?_mem hv) with rfl | rfl <;> rfl

theorem getAdjacent_room (g : GenState) (x y : Nat) (dir : Dir) (d : RoomData)
    (h : getAdjacent g x y dir = AdjCell.room d) : ∃ c, g.layout c = some d := by
  cases dir <;>
    (unfold getAdjacent at h
     dsimp only at h
     split at h
     · exact AdjCell.noConfusion h
     · split at h
       · rename_i d' heq
         injection h with h1
         subst h1
         exact ⟨_, heq⟩
       · exact AdjCell.noConfusion h)

theorem adjacentEdges_blank (g : GenState) (hb : AllBlank g) (hrs : g.roomSize = 9)
    (dir : Dir) (x y : Nat) :
    (_getAdjacentEdges g dir (getAdjacent g x y dir)).length ≤ 9 ∧
    ∀ v ∈ _getAdjacentEdges g dir (getAdjacent g x y dir),
      v = EdgeData.Closed ∨ v = EdgeData.Unknown := by
  cases hadj : getAdjacent g x y dir with
  | outer =>
    unfold _getAdjacentEdges
    refine ⟨by simp [hrs], ?_⟩
    intro v hv
    exact Or.inl (List.eq_of_mem_replicate hv)
  | empty =>
    unfold _getAdjacentEdges
    refine ⟨by simp [hrs], ?_⟩
    intro v hv
    exact Or.inr (List.eq_of_mem_replicate hv)
  | room d =>
    obtain ⟨c, hc⟩ := getAdjacent_room g x y dir d hadj
    have hd : d = getBlankPermutation := hb c d hc
    subst hd
    unfold _getAdjacentEdges
    constructor
    · cases dir <;> simp [getBlankPermutation, oppositeDir, edgesAt]
    · intro v hv
      left
      cases dir <;>
        (unfold oppositeDir edgesAt at hv
         exact List.eq_of_mem_replicate hv)

theorem testPermutation_blank (g : GenState) (hb : AllBlank g) (hrs : g.roomSize = 9)
    (x y : Nat) :
    _testPermutation getBlankPermutation (_getAdjacentConstraints g x y) = true := by
  have hn := adjacentEdges_blank g hb hrs Dir.n x y
  have he := adjacentEdges_blank g hb hrs Dir.e x y
  have hs := adjacentEdges_blank g hb hrs Dir.s x y
  have hw := adjacentEdges_blank g hb hrs Dir.w x y
  unfold _testPermutation
  rw [Bool.and_eq_true, Bool.and_eq_true, Bool.and_eq_true]
  exact ⟨⟨⟨testEdge_blank _ hn.1 hn.2, testEdge_blank _ he.1 he.2⟩,
    testEdge_blank _ hs.1 hs.2⟩, testEdge_blank _ hw.1 hw.2⟩

theorem matching_empty (constraints : EdgeConstraints)
    (h : _testPermutation getBlankPermutation constraints = true) :
    _getMatchingPermutations [] constraints = [getBlankPermutation] := by
  unfold _getMatchingPermutations
  simp [h]

theorem genInv_transfer (g g1 : GenState) (hn : g1.nRooms = g.nRooms)
    (hlay : g1.layout = g.layout) (hpl : g1.placements = g.placements)
    (hg : GenInv g) : GenInv g1 := by
  obtain ⟨h1, h2, h3, h4⟩ := hg
  refine ⟨hn ▸ h1, hpl ▸ h2, ?_, ?_⟩
  · intro c
    rw [hlay, hpl]
    exact h3 c
  · intro c hc
    rw [hn]
    exact h4 c (hpl ▸ hc)

theorem getNextLocation_total (od : OpenDirs) (σ : Nat → Nat) (g : GenState)
    (_hg : GenInv g) (hlen : g.placements.length < g.nRooms * g.nRooms) :
    ∃ c ty g1, _getNextLocation od σ g = some (c, ty, g1) := by
  unfold _getNextLocation
  by_cases hemp : g.placements.isEmpty
  · rw [if_pos hemp]
    exact ⟨_, _, _, rfl⟩
  · rw [if_neg hemp]
    by_cases hreq : (_getProgress od g).required ≠ []
    · rw [dif_pos hreq]
      exact ⟨_, _, _, rfl⟩
    · rw [dif_neg hreq]
      have hinc : (_getProgress od g).incomplete ≠ [] := by
        intro hnil
        have hall : ∀ cc ∈ gridCoords g.nRooms, cc ∈ g.placements := by
          intro cc hcc
          have hne := List.filter_eq_nil_iff.mp hnil cc hcc
          rw [decide_eq_true_eq, not_not] at hne
          exact (progress_completed_mem od g g.placements ([], []) cc).mp hne |>.elim
            (fun hfalse => absurd hfalse (List.not_mem_nil cc)) id
        have hsub : (gridCoords g.nRooms).toFinset ⊆ g.placements.toFinset := by
          intro cc hcc
          rw [List.mem_toFinset] at hcc ⊢
          exact hall cc hcc
        have h1 := Finset.card_le_card hsub
        rw [List.toFinset_card_of_nodup (gridCoords_nodup _)] at h1
        have h2 := List.toFinset_card_le g.placements
        rw [gridCoords_length] at h1
        omega
      rw [dif_pos hinc]
      exact ⟨_, _, _, rfl⟩

theorem try_blank (od : OpenDirs) (σ : Nat → Nat) (g : GenState)
    (hg : GenInv g) (hb : AllBlank g) (hrs : g.roomSize = 9)
    (hlen : g.placements.length < g.nRooms * g.nRooms) :
    ∃ g', _try [] od σ g = some g' ∧ GenInv g' ∧ AllBlank g' ∧
      g'.placements.length = g.placements.length + 1 ∧
      g'.nRooms = g.nRooms ∧ g'.roomSize = g.roomSize ∧ g'.gridSize = g.gridSize ∧
      g'.attempts = g.attempts := by
  obtain ⟨c, ty, g1, hloc⟩ := getNextLocation_total od σ g hg hlen
  obtain ⟨hc, hcx, hcy, hn1, hrs1, hgs1, hlay1, hpl1, hat1⟩ :=
    getNextLocation_props od σ g hg.1 c ty g1 hloc
  have hb1 : AllBlank g1 := by
    intro c' d hd
    rw [hlay1] at hd
    exact hb c' d hd
  have hconstr : _testPermutation getBlankPermutation
      (_getAdjacentConstraints g1 c.1 c.2) = true :=
    testPermutation_blank g1 hb1 (by rw [hrs1, hrs]) c.1 c.2
  have hperms : _getMatchingPermutations []
      (_getAdjacentConstraints g1 c.1 c.2) = [getBlankPermutation] :=
    matching_empty _ hconstr
  have htry : _try [] od σ g = some
      { g1 with
        rix := g1.rix + 1
        placements := g1.placements ++ [c]
        layout := setCell g1.layout c (some getBlankPermutation) } := by
    unfold _try
    rw [hloc]
    dsimp only
    have hrq : (if ty = LocType.blank then some ([] : List Room)
        else findRooms [] (some (if g1.placements.isEmpty then 9
          else countOpenConstraints (_getAdjacentConstraints g1 c.1 c.2))) none)
        = some ([] : List Room) := by
      split <;> rfl
    rw [hrq]
    dsimp only
    simp only [hperms]
    rw [dif_neg (by simp : ¬([getBlankPermutation] : List RoomData) = [])]
    simp only [draw, List.length_singleton, Nat.mod_one, List.get_cons_zero]
    rw [List.get_of_eq hperms]
    rfl
  refine ⟨_, htry, genInv_try [] od σ g _ hg htry, ?_, ?_, ?_, ?_, ?_, ?_⟩
  · intro c' d hd
    have hd' : setCell g1.layout c (some getBlankPermutation) c' = some d := hd
    unfold setCell at hd'
    by_cases hcc : c' = c
    · rw [if_pos hcc] at hd'
      injection hd' with h1
      exact h1.symm
    · rw [if_neg hcc] at hd'
      exact hb1 c' d hd'
  · show (g1.placements ++ [c]).length = g.placements.length + 1
    rw [List.length_append, hpl1, List.length_singleton]
  · exact hn1
  · exact hrs1
  · exact hgs1
  · exact hat1

theorem blank_run (od : OpenDirs) (σ : Nat → Nat) :
    ∀ (m : Nat) (g : GenState) (fuel : Nat),
      GenInv g → AllBlank g → g.roomSize = 9 → g.nRooms = 3 →
      g.placements.length + (m + 1) = 9 → m + 1 ≤ fuel →
      g.attempts + (m + 1) ≤ maxAttempts →
      ∃ g', genLoop [] od σ fuel g = Except.ok (g', true) ∧
        GenInv g' ∧ AllBlank g' ∧ g'.placements.length = 9 ∧
        g'.nRooms = 3 ∧ g'.roomSize = 9 ∧ g'.gridSize = g.gridSize ∧
        g'.attempts = g.attempts + (m + 1) := by
  intro m
  induction m with
  | zero =>
    intro g fuel hInv hb hrs hn hplen hfuel hatt
    obtain ⟨f, rfl⟩ : ∃ f, fuel = f + 1 := ⟨fuel - 1, by omega⟩
    have hlt : (incAttempts g).placements.length <
        (incAttempts g).nRooms * (incAttempts g).nRooms := by
      show g.placements.length < g.nRooms * g.nRooms
      rw [hn]
      omega
    obtain ⟨g', htry, hInv', hb', hplen', hn', hrs', hgs', hat'⟩ :=
      try_blank od σ (incAttempts g) hInv hb hrs hlt
    have e1 : g'.placements.length = g.placements.length + 1 := hplen'
    have e2 : g'.roomSize = 9 := by rw [hrs']; exact hrs
    have hcomplete : g'.placements.length = g'.roomSize := by omega
    refine ⟨g', ?_, hInv', hb', by omega, ?_, e2, hgs', ?_⟩
    · unfold genLoop
      rw [if_pos (show g.attempts < maxAttempts by omega)]
      dsimp only
      rw [htry]
      dsimp only
      rw [if_pos hcomplete]
    · rw [hn']
      exact hn
    · rw [hat']
      rfl
  | succ k ih =>
    intro g fuel hInv hb hrs hn hplen hfuel hatt
    obtain ⟨f, rfl⟩ : ∃ f, fuel = f + 1 := ⟨fuel - 1, by omega⟩
    have hlt : (incAttempts g).placements.length <
        (incAttempts g).nRooms * (incAttempts g).nRooms := by
      show g.placements.length < g.nRooms * g.nRooms
      rw [hn]
      omega
    obtain ⟨g2, htry, hInv2, hb2, hplen2, hn2, hrs2, hgs2, hat2⟩ :=
      try_blank od σ (incAttempts g) hInv hb hrs hlt
    have e1 : g2.placements.length = g.placements.length + 1 := hplen2
    have e2 : g2.roomSize = 9 := by rw [hrs2]; exact hrs
    have e3 : g2.attempts = g.attempts + 1 := hat2
    have hne : ¬(g2.placements.length = g2.roomSize) := by omega
    obtain ⟨g', hloop, hInv', hb', hplen', hn', hrs', hgs', hat'⟩ :=
      ih g2 f hInv2 hb2 e2 (by rw [hn2]; exact hn) (by omega) (by omega) (by omega)
    refine ⟨g', ?_, hInv', hb', hplen', hn', hrs', by rw [hgs']; exact hgs2, by omega⟩
    unfold genLoop
    rw [if_pos (show g.attempts < maxAttempts by omega)]
    dsimp only
    rw [htry]
    dsimp only
    rw [if_neg hne]
    exact hloop

theorem export_skip (roomSize gridSize : Nat) (coords : List Coord) :
    ∀ (cfg : ExportConfig) (L : Coord → Option RoomData),
      (∀ c d, L c = some d → d = getBlankPermutation) →
      coords.foldl (exportStep roomSize gridSize) (cfg, L) = (cfg, L) := by
  induction coords with
  | nil =>
    intro cfg L _
    rfl
  | cons c rest ih =>
    intro cfg L h
    rw [List.foldl_cons]
    have hstep : exportStep roomSize gridSize (cfg, L) c = (cfg, L) := by
      unfold exportStep
      dsimp only
      cases hl : L c with
      | none => rfl
      | some d =>
        have hd := h c d hl
        subst hd
        rfl
    rw [hstep]
    exact ih cfg L h

theorem export_allBlank (g : GenState) (hb : AllBlank g) :
    (_export g).1.tiles = [] ∧ (_export g).1.walls = [] := by
  unfold _export
  dsimp only
  rw [export_skip g.roomSize g.gridSize (gridCoords g.nRooms) _ _ hb]
  exact ⟨rfl, rfl⟩

theorem blank_allClosed : allEdgesClosed getBlankPermutation := by
  unfold allEdgesClosed getBlankPermutation
  decide

/-- C5: with a catalog of zero tiles, for every random stream (and every
candidate for the missing `Room.getOpenDirections`) a small generation
run reaches the Complete report within the attempt budget — after
exactly 9 attempts — by placing the synthetic Blank variant in every
grid cell, and the export of the resulting grid contains zero tiles and
zero walls, every cell's boundary being all-closed. -/
theorem emptyCatalog_complete (od : OpenDirs) (σ : Nat → Nat) :
    ∃ g, genLoop [] od σ maxAttempts (configureG SizeOpt.small 9 200) =
        Except.ok (g, true) ∧
      g.attempts = 9 ∧ g.attempts ≤ maxAttempts ∧
      (_export g).1.tiles = [] ∧ (_export g).1.walls = [] ∧
      ∀ c : Coord, c.1 < 3 → c.2 < 3 →
        g.layout c = some getBlankPermutation ∧
        ∃ d, g.layout c = some d ∧ allEdgesClosed d := by
  have hInv0 : GenInv (configureG SizeOpt.small 9 200) := by
    refine ⟨by decide, List.nodup_nil, ?_, ?_⟩
    · intro c
      simp [configureG]
    · intro c hc
      exact absurd hc (List.not_mem_nil c)
  have hb0 : AllBlank (configureG SizeOpt.small 9 200) := by
    intro c d hd
    exact Option.noConfusion hd
  obtain ⟨g, hloop, hInv, hb, hlen, hn, hrs, hgs, hat⟩ :=
    blank_run od σ 8 (configureG SizeOpt.small 9 200) maxAttempts
      hInv0 hb0 rfl rfl rfl (by decide) (by decide)
  have hexp := export_allBlank g hb
  have hfull : ∀ c : Coord, c.1 < 3 → c.2 < 3 → g.layout c = some getBlankPermutation := by
    intro c h1 h2
    obtain ⟨hpos, hnod, hiff, hbound⟩ := hInv
    have hsub : g.placements.toFinset ⊆ (gridCoords 3).toFinset := by
      intro cc hcc
      rw [List.mem_toFinset] at hcc ⊢
      have hbb := hbound cc hcc
      rw [hn] at hbb
      exact (gridCoords_mem 3 cc).mpr hbb
    have hcard : (gridCoords 3).toFinset.card ≤ g.placements.toFinset.card := by
      rw [List.toFinset_card_of_nodup hnod,
        List.toFinset_card_of_nodup (gridCoords_nodup 3), gridCoords_length, hlen]
    have hfeq := Finset.eq_of_subset_of_card_le hsub hcard
    have hcmem : c ∈ g.placements := by
      rw [← List.mem_toFinset, hfeq, List.mem_toFinset]
      exact (gridCoords_mem 3 c).mpr ⟨h1, h2⟩
    obtain ⟨d, hd⟩ := Option.isSome_iff_exists.mp ((hiff c).mpr hcmem)
    rw [hd, hb c d hd]
  have h0 : (configureG SizeOpt.small 9 200).attempts = 0 := rfl
  have hmax : maxAttempts = 500 := rfl
  refine ⟨g, hloop, by omega, by omega, hexp.1, hexp.2, ?_⟩
  intro c h1 h2
  exact ⟨hfull c h1 h2, getBlankPermutation, hfull c h1 h2, blank_allClosed⟩

theorem exportStep_width (roomSize gridSize : Nat)
    (acc : ExportConfig × (Coord → Option RoomData)) (c : Coord) :
    (exportStep roomSize gridSize acc c).1.width = acc.1.width ∧
    (exportStep roomSize gridSize acc c).1.height = acc.1.height := by
  unfold exportStep
  cases hl : acc.2 c with
  | none => exact ⟨rfl, rfl⟩
  | some d =>
    dsimp only
    by_cases himg : imgTruthy d = true
    · rw [if_pos himg]
      exact ⟨rfl, rfl⟩
    · rw [if_neg himg]
      exact ⟨rfl, rfl⟩

theorem export_fold_width (roomSize gridSize : Nat) (coords : List Coord) :
    ∀ (acc : ExportConfig × (Coord → Option RoomData)),
      (coords.foldl (exportStep roomSize gridSize) acc).1.width = acc.1.width ∧
      (coords.foldl (exportStep roomSize gridSize) acc).1.height = acc.1.height := by
  induction coords with
  | nil => intro acc; exact ⟨rfl, rfl⟩
  | cons c rest ih =>
    intro acc
    rw [List.foldl_cons]
    constructor
    · rw [(ih _).1]
      exact (exportStep_width roomSize gridSize acc c).1
    · rw [(ih _).2]
      exact (exportStep_width roomSize gridSize acc c).2

theorem export_tiles_mono (roomSize gridSize : Nat) (coords : List Coord) :
    ∀ (acc : ExportConfig × (Coord → Option RoomData)) (t : TileData),
      t ∈ acc.1.tiles →
      t ∈ (coords.foldl (exportStep roomSize gridSize) acc).1.tiles := by
  induction coords with
  | nil => intro acc t ht; exact ht
  | cons c rest ih =>
    intro acc t ht
    rw [List.foldl_cons]
    apply ih
    unfold exportStep
    cases hl : acc.2 c with
    | none => exact ht
    | some d =>
      dsimp only
      by_cases himg : imgTruthy d = true
      · rw [if_pos himg]
        exact List.mem_append_left _ ht
      · rw [if_neg himg]
        exact ht

theorem exportStep_layout_other (roomSize gridSize : Nat)
    (acc : ExportConfig × (Coord → Option RoomData)) (c c' : Coord) (hne : c' ≠ c) :
    (exportStep roomSize gridSize acc c).2 c' = acc.2 c' := by
  unfold exportStep
  cases hl : acc.2 c with
  | none => rfl
  | some d =>
    dsimp only
    by_cases himg : imgTruthy d = true
    · rw [if_pos himg]
      show setCell acc.2 c _ c' = acc.2 c'
      unfold setCell
      rw [if_neg hne]
    · rw [if_neg himg]

theorem export_fold_tile (roomSize gridSize : Nat) (coords : List Coord) :
    ∀ (acc : ExportConfig × (Coord → Option RoomData)) (c : Coord) (d : RoomData),
      c ∈ coords → acc.2 c = some d → imgTruthy d = true →
      mkTileData (roomSize * gridSize) c d ∈
        (coords.foldl (exportStep roomSize gridSize) acc).1.tiles := by
  induction coords with
  | nil =>
    intro acc c d hc _ _
    exact absurd hc (List.not_mem_nil c)
  | cons c0 rest ih =>
    intro acc c d hc hd ht
    rw [List.foldl_cons]
    by_cases hcc : c = c0
    · subst hcc
      apply export_tiles_mono
      unfold exportStep
      rw [hd]
      dsimp only
      rw [if_pos ht]
      dsimp only
      exact List.mem_append_right _ (List.mem_singleton.mpr rfl)
    · rcases List.mem_cons.mp hc with h1 | h1
      · exact absurd h1 hcc
      · refine ih _ c d h1 ?_ ht
        rw [exportStep_layout_other roomSize gridSize acc c0 c hcc]
        exact hd

/-- C8: for every grid state, every placed cell `(x, y)` holding data
with a truthy image is exported as a tile whose world coordinates are
`x` and `y` scaled by `roomSize * gridSize` (with matching width and
height), and the canvas dimensions are
`nRooms * roomSize * gridSize` on each axis. -/
theorem export_tile_coords (g : GenState) (x y : Nat) (d : RoomData)
    (hx : x < g.nRooms) (hy : y < g.nRooms)
    (hd : g.layout (x, y) = some d) (ht : imgTruthy d = true) :
    mkTileData (g.roomSize * g.gridSize) (x, y) d ∈ (_export g).1.tiles ∧
    (mkTileData (g.roomSize * g.gridSize) (x, y) d).x = x * (g.roomSize * g.gridSize) ∧
    (mkTileData (g.roomSize * g.gridSize) (x, y) d).y = y * (g.roomSize * g.gridSize) ∧
    (mkTileData (g.roomSize * g.gridSize) (x, y) d).width = g.roomSize * g.gridSize ∧
    (mkTileData (g.roomSize * g.gridSize) (x, y) d).height = g.roomSize * g.gridSize ∧
    (_export g).1.width = g.nRooms * g.roomSize * g.gridSize ∧
    (_export g).1.height = g.nRooms * g.roomSize * g.gridSize := by
  refine ⟨?_, rfl, rfl, rfl, rfl, ?_, ?_⟩
  · unfold _export
    dsimp only
    exact export_fold_tile g.roomSize g.gridSize (gridCoords g.nRooms) _ (x, y) d
      ((gridCoords_mem _ (x, y)).mpr ⟨hx, hy⟩) hd ht
  · unfold _export
    dsimp only
    rw [(export_fold_width g.roomSize g.gridSize (gridCoords g.nRooms) _).1]
    rfl
  · unfold _export
    dsimp only
    rw [(export_fold_width g.roomSize g.gridSize (gridCoords g.nRooms) _).2]
    rfl

/-- Witness for C8: a single placed cell at grid coordinate (1, 1) with
`roomSize = 9` and `gridSize = 200` is exported at world coordinates
(1800, 1800) on a 5400-pixel canvas. -/
theorem export_tile_coords_witness :
    ((1 : Nat) < gExportW.nRooms ∧ (1 : Nat) < gExportW.nRooms ∧
      gExportW.layout (1, 1) = some dPlacedW ∧ imgTruthy dPlacedW = true) ∧
    (mkTileData (gExportW.roomSize * gExportW.gridSize) (1, 1) dPlacedW ∈
        (_export gExportW).1.tiles ∧
      (mkTileData (gExportW.roomSize * gExportW.gridSize) (1, 1) dPlacedW).x = 1800 ∧
      (mkTileData (gExportW.roomSize * gExportW.gridSize) (1, 1) dPlacedW).y = 1800 ∧
      (mkTileData (gExportW.roomSize * gExportW.gridSize) (1, 1) dPlacedW).width = 1800 ∧
      (mkTileData (gExportW.roomSize * gExportW.gridSize) (1, 1) dPlacedW).height = 1800 ∧
      (_export gExportW).1.width = 5400 ∧
      (_export gExportW).1.height = 5400) :=
  ⟨⟨by decide, by decide, rfl, rfl⟩,
    export_tile_coords gExportW 1 1 dPlacedW (by decide) (by decide) rfl rfl⟩

/-- C6 (code-bug evidence): exporting is not a pure read of the grid —
`_export` offsets the placed cells' stored wall coordinates in place, so
a second export of the same grid emits different (doubly offset) wall
data, and the grid's cell data differs after the first call. -/
theorem export_not_idempotent :
    (_export gExportW).1.walls ≠ (_export (_export gExportW).2).1.walls ∧
    (_export gExportW).1 ≠ (_export (_export gExportW).2).1 ∧
    (_export gExportW).2.layout (1, 1) ≠ gExportW.layout (1, 1) := by
  refine ⟨?_, ?_, ?_⟩ <;> decide

end DTile
